import Mathlib

/-!
Verification development for the NCList construction module
(src/python/nclist.py): the in-memory builder NCList, the streaming
builder LazyNCList and its per-tier bookkeeping LazyLevel.

The embedding is a shallow, line-by-line translation of the Python
source.  Python values that the module stores in record slots are
integers, None and list objects; list objects are mutable and aliased,
so they live in an explicit heap (a list of cells, each cell a list of
values) and are referred to by address.  Python exceptions are modelled
by an error-preserving state monad: a step either succeeds with a value
and a new state or fails with an error and the state at the moment the
exception was raised (mutations made before the raise are kept, as in
Python).  The output callback of the streaming builder is modelled as an
event trace inside the state.

Modelling notes, stated once here:
* slot indices (startIndex, endIndex, sublistIndex, lazyIndex) are
  natural numbers; the module is only ever configured with non-negative
  indices;
* comparison operators: the source only ever orders integers (starts,
  ends, sizes); ordering a non-integer is modelled as a type error,
  which matches Python for None and for mixed operands.  Equality on
  references compares addresses; deep list equality is never exercised
  by the module;
* Python stacks that the source only touches at the end (append, pop,
  index -1) are represented with the most recent element first;
* the caller-supplied measure function is carried as a pure function
  field, and the caller-supplied output callback as the event trace.
-/

namespace NCListPy

/-- A Python value as stored by the module: None, an integer, or a
reference to a list object in the heap. -/
inductive Val where
  | none : Val
  | int : Int → Val
  | ref : Nat → Val
  deriving DecidableEq, Repr

/-- The Python exceptions the module can raise. -/
inductive Err where
  | attributeError : String → Err
  | typeError : String → Err
  | indexError : Err
  | nameError : String → Err
  | inputNotSortedError : Err
  deriving DecidableEq, Repr

/-- Program state: the heap of list objects and the trace of
output-callback invocations (nestedList value, chunk ID value). -/
structure PySt where
  heap : List (List Val)
  trace : List (Val × Val)
  deriving DecidableEq, Repr

/-- Outcome of a step: success or a raised exception; both carry the
state, since Python keeps mutations made before a raise. -/
inductive PRes (α : Type) where
  | ok : α → PySt → PRes α
  | err : Err → PySt → PRes α

/-- The state that a step left behind, whether it succeeded or raised. -/
def PRes.stateOf {α : Type} : PRes α → PySt
  | .ok _ s => s
  | .err _ s => s

/-- The error of a step, if it raised. -/
def PRes.errOf {α : Type} : PRes α → Option Err
  | .ok _ _ => Option.none
  | .err e _ => some e

/-- The state-and-exception monad the embedding runs in. -/
def PM (α : Type) : Type := PySt → PRes α

def PM.pure {α : Type} (a : α) : PM α := fun s => .ok a s

def PM.bind {α β : Type} (x : PM α) (f : α → PM β) : PM β := fun s =>
  match x s with
  | .ok a s2 => f a s2
  | .err e s2 => .err e s2

instance : Monad PM where
  pure := PM.pure
  bind := PM.bind

/-- Raise a Python exception. -/
def throwE {α : Type} (e : Err) : PM α := fun s => .err e s

/-- Index lookup in a list, Python style for non-negative indices:
out of range gives nothing. -/
def lookupList {α : Type} : List α → Nat → Option α
  | [], _ => Option.none
  | x :: _, 0 => some x
  | _ :: rest, n + 1 => lookupList rest n

/-- In-range update of a list; out of range gives nothing. -/
def setList {α : Type} : List α → Nat → α → Option (List α)
  | [], _, _ => Option.none
  | _ :: rest, 0, v => some (v :: rest)
  | x :: rest, n + 1, v => (setList rest n v).map (x :: ·)

/-- Dereference a list object.  A dangling address cannot be produced
by the module; it is modelled as an index error. -/
def getCell (a : Nat) : PM (List Val) := fun s =>
  match lookupList s.heap a with
  | some c => .ok c s
  | Option.none => .err .indexError s

/-- Allocate a fresh list object, returning its address. -/
def allocM (c : List Val) : PM Nat := fun s =>
  .ok s.heap.length { s with heap := s.heap ++ [c] }

/-- Python subscript v[i]: only list objects are subscriptable; an
out-of-range index raises IndexError. -/
def subV (v : Val) (i : Nat) : PM Val := fun s =>
  match v with
  | .ref a =>
      match lookupList s.heap a with
      | some c =>
          match lookupList c i with
          | some x => .ok x s
          | Option.none => .err .indexError s
      | Option.none => .err .indexError s
  | _ => .err (.typeError "not subscriptable") s

/-- Python item assignment v[i] = x: only on list objects, only in
range. -/
def setItemV (v : Val) (i : Nat) (x : Val) : PM Unit := fun s =>
  match v with
  | .ref a =>
      match lookupList s.heap a with
      | some c =>
          match setList c i x with
          | some c2 =>
              match setList s.heap a c2 with
              | some h2 => .ok () { s with heap := h2 }
              | Option.none => .err .indexError s
          | Option.none => .err .indexError s
      | Option.none => .err .indexError s
  | _ => .err (.typeError "does not support item assignment") s

/-- Python list.append on a heap object. -/
def appendCell (a : Nat) (x : Val) : PM Unit := fun s =>
  match lookupList s.heap a with
  | some c =>
      match setList s.heap a (c ++ [x]) with
      | some h2 => .ok () { s with heap := h2 }
      | Option.none => .err .indexError s
  | Option.none => .err .indexError s

/-- Python strict order on values: the module only orders integers;
None or a list in an ordering raises TypeError (list-list ordering is
never exercised by the module and is modelled as the same error). -/
def pyLt : Val → Val → PM Bool
  | .int a, .int b => PM.pure (decide (a < b))
  | _, _ => throwE (.typeError "unsupported comparison")

/-- Python a > b, as the flipped strict order. -/
def pyGt (a b : Val) : PM Bool := pyLt b a

/-- Python equality on the values the module compares: integers and
None structurally; references by address (the module never compares
two distinct lists for equality). -/
def pyEq (a b : Val) : Bool := a == b

/-- Python max of two values, per the builtin: the second wins only if
it is strictly greater. -/
def pyMax (a b : Val) : PM Val := do
  let g ← pyLt a b
  PM.pure (if g then b else a)

/-- Calling a value.  Every value the module ever calls through this
path is None (the ID attribute), and no Val is callable. -/
def pyCall (f : Val) (args : List Val) : PM Val :=
  match f, args with
  | _, _ => throwE (.typeError "object is not callable")

/-- Evaluation of an undefined global name (the bare name chunk in
makeLazyFeat) raises NameError. -/
def lookupName (n : String) : PM Val := throwE (.nameError n)

/-- Invoke the output callback: recorded on the event trace. -/
def emitOutput (nestedList id : Val) : PM Unit := fun s =>
  .ok () { s with trace := s.trace ++ [(nestedList, id)] }

/-- The NCList object state (nclist.py lines 8 to 81).  curList and
topList are addresses of heap list objects; sublistStack holds the
addresses of the open ancestor lists, most recent first. -/
structure NCList where
  startIndex : Nat
  endIndex : Nat
  sublistIndex : Nat
  sublistStack : List Nat
  count : Nat
  lastAdded : Val
  minStart : Val
  maxEnd : Val
  curList : Nat
  topList : Nat
  ID : Val
  deriving DecidableEq, Repr

/-- NCList.__init__: one fresh empty list, aliased by curList and
topList; lastAdded, minStart, maxEnd and ID are None. -/
def NCList.init (startIndex endIndex sublistIndex : Nat) : PM NCList := do
  let l ← allocM []
  PM.pure { startIndex, endIndex, sublistIndex
            sublistStack := []
            count := 0
            lastAdded := .none
            minStart := .none
            maxEnd := .none
            curList := l
            topList := l
            ID := .none }

/-- The while loop of NCList._addSingle (lines 58 to 75): walk the
sublist stack outward until the last record of the list on top of the
stack still ends after feat, appending feat to the first such list, or
to the reached list when the stack empties.  Returns the new stack and
the new curList. -/
def NCList.addSingleLoop (e : Nat) (feat : Val) :
    List Nat → Nat → PM (List Nat × Nat)
  | [], curList => do
      appendCell curList feat
      PM.pure ([], curList)
  | topL :: rest, curList => do
      let c ← getCell topL
      match c.getLast? with
      | Option.none => throwE .indexError
      | some lastRec => do
          let le ← subV lastRec e
          let fe ← subV feat e
          let gt ← pyGt le fe
          if gt then do
            appendCell curList feat
            PM.pure (topL :: rest, curList)
          else
            NCList.addSingleLoop e feat rest topL

/-- NCList._addSingle (lines 48 to 77).  When feat ends strictly before
lastAdded, a fresh one-element list becomes the new curList, the old
curList is pushed on the stack, and the new list is written into the
sublist slot of lastAdded; otherwise the stack is walked by
addSingleLoop. -/
def NCList.addSingle (feat lastAdded : Val) (sublistStack : List Nat)
    (curList : Nat) (e subIdx : Nat) : PM (List Nat × Nat) := do
  let fe ← subV feat e
  let le ← subV lastAdded e
  let lt ← pyLt fe le
  if lt then do
    let newList ← allocM [feat]
    setItemV lastAdded subIdx (.ref newList)
    PM.pure (curList :: sublistStack, newList)
  else
    NCList.addSingleLoop e feat sublistStack curList

/-- Evaluation of the sortedness condition on lines 36 to 39, with the
Python short-circuit order: lastAdded[start] > feat[start], or
lastAdded[start] == feat[start] and lastAdded[end] < feat[end]; the
equality re-subscripts both records, as the source does. -/
def NCList.sortCheck (self : NCList) (feat : Val) : PM Bool := do
  let laS ← subV self.lastAdded self.startIndex
  let fS ← subV feat self.startIndex
  let g ← pyGt laS fS
  if g then PM.pure true
  else do
    let laS2 ← subV self.lastAdded self.startIndex
    let fS2 ← subV feat self.startIndex
    if pyEq laS2 fS2 then do
      let laE ← subV self.lastAdded self.endIndex
      let fE ← subV feat self.endIndex
      pyLt laE fE
    else PM.pure false

/-- The per-feature loop of NCList.addFeatures (lines 33 to 46): the
sortedness check against lastAdded, the maxEnd update, the placement by
_addSingle, the advance of lastAdded. -/
def NCList.addLoop (self : NCList) : List Val → PM NCList
  | [] => PM.pure self
  | feat :: rest => do
      let sortViol ← self.sortCheck feat
      if sortViol then throwE .inputNotSortedError
      else do
        let fE2 ← subV feat self.endIndex
        let newMax ← pyMax self.maxEnd fE2
        let (stack2, cur2) ← NCList.addSingle feat self.lastAdded
            self.sublistStack self.curList self.endIndex self.sublistIndex
        NCList.addLoop { self with
                         maxEnd := newMax
                         sublistStack := stack2
                         curList := cur2
                         lastAdded := feat } rest

/-- NCList.addFeatures (lines 22 to 46), exactly as written: the
initialization branch runs when lastAdded is NOT None (the guard in the
source is inverted), consuming features[0]; then the per-feature
loop runs, which subscripts lastAdded. -/
def NCList.addFeatures (self : NCList) (features : List Val) :
    PM NCList := do
  if self.lastAdded != Val.none then
    match features with
    | [] => throwE .indexError
    | f0 :: rest => do
        let ms ← subV f0 self.startIndex
        let me ← subV f0 self.endIndex
        appendCell self.curList f0
        NCList.addLoop
          { self with lastAdded := f0, minStart := ms, maxEnd := me } rest
  else
    NCList.addLoop self features

/-- The nestedList property of NCList (lines 79 to 81): the top-level
list object. -/
def NCList.nestedList (self : NCList) : Val := .ref self.topList

/-- An element of the ncls stack of a LazyLevel.  The source pushes
NCList objects onto it, but line 239 also pushes the lazy feature (a
plain value), so the stack is heterogeneous. -/
inductive NclsItem where
  | nclObj : NCList → NclsItem
  | plain : Val → NclsItem
  deriving DecidableEq, Repr

/-- The LazyLevel object state (lines 211 to 216): the partial chunk
being filled, its running size, the last record of the previous
finished chunk, and the stack of finished-but-unflushed chunks, most
recently finished first. -/
structure LazyLevel where
  precedingFeat : Val
  current : List Val
  chunkSize : Int
  ncls : List NclsItem
  deriving DecidableEq, Repr

/-- LazyLevel.__init__. -/
def LazyLevel.initState : LazyLevel :=
  { precedingFeat := .none, current := [], chunkSize := 0, ncls := [] }

/-- The while loop of LazyLevel.findContainingNcl (lines 233 to 248)
over the ncls stack.  When the new NCL ends strictly before the one on
top, the lazy feature is ingested into that NCL and LINE 239 PUSHES THE
LAZY FEATURE (not the new NCL) onto the stack, returning None;
otherwise the top NCL is written to the output and popped.  When the
stack empties the new NCL is pushed and the lazy feature is returned.
Reading maxEnd or nestedList from a plain (non-NCList) stack entry
raises AttributeError. -/
def LazyLevel.findLoop (newNcl : NCList) (lazyFeat : Val) :
    List NclsItem → PM (List NclsItem × Val)
  | [] => PM.pure ([.nclObj newNcl], lazyFeat)
  | item :: rest =>
      match item with
      | .plain _ => throwE (.attributeError "maxEnd")
      | .nclObj existingNcl => do
          let lt ← pyLt newNcl.maxEnd existingNcl.maxEnd
          if lt then do
            let ex2 ← existingNcl.addFeatures [lazyFeat]
            PM.pure (.plain lazyFeat :: .nclObj ex2 :: rest, Val.none)
          else do
            emitOutput existingNcl.nestedList existingNcl.ID
            LazyLevel.findLoop newNcl lazyFeat rest

/-- LazyLevel.findContainingNcl (lines 218 to 248). -/
def LazyLevel.findContainingNcl (self : LazyLevel) (newNcl : NCList)
    (lazyFeat : Val) : PM (LazyLevel × Val) := do
  let (ncls2, ret) ← LazyLevel.findLoop newNcl lazyFeat self.ncls
  PM.pure ({ self with ncls := ncls2 }, ret)

/-- The LazyNCList object state (lines 84 to 96).  The measure callback
is a pure function per the interface contract; the output callback is
the event trace of the monad.  The fields lastAdded and chunkSizes are
READ by addSorted but never assigned by the constructor (or, for
chunkSizes, anywhere): an unassigned attribute is the Option value
none, and reading it raises AttributeError.  The topLevel attribute is
assigned only by the last line of finish. -/
structure LazyNCList where
  startIndex : Nat
  endIndex : Nat
  sublistIndex : Nat
  lazyIndex : Nat
  measure : Val → Int
  sizeThresh : Int
  topList : Nat
  levels : List LazyLevel
  chunkNum : Int
  lastAdded? : Option Val := Option.none
  chunkSizes? : Option Val := Option.none
  topLevel? : Option NCList := Option.none

/-- LazyNCList.__init__ (lines 85 to 96): allocates the empty topList
and a single fresh level; does not assign lastAdded or chunkSizes. -/
def LazyNCList.init (start e subIdx lazyIdx : Nat) (measure : Val → Int)
    (sizeThresh : Int) : PM LazyNCList := do
  let t ← allocM []
  PM.pure { startIndex := start
            endIndex := e
            sublistIndex := subIdx
            lazyIndex := lazyIdx
            measure
            sizeThresh
            topList := t
            levels := [LazyLevel.initState]
            chunkNum := 0 }

/-- LazyNCList.nestedList (lines 98 to 99): returns the topList
attribute set by the constructor. -/
def LazyNCList.nestedList (self : LazyNCList) : Val := .ref self.topList

/-- LazyNCList.makeNcl (lines 171 to 176): builds a fresh NCList for a
finished chunk.  The second line of the source calls the ID attribute,
result.ID(self.chunkNum), but NCList.__init__ set ID to None, so the
call raises TypeError before the chunk number is advanced or any
feature is added. -/
def LazyNCList.makeNcl (self : LazyNCList) (level : LazyLevel) :
    PM (LazyNCList × NCList) := do
  let result ← NCList.init self.startIndex self.endIndex self.sublistIndex
  let _ ← pyCall result.ID [.int self.chunkNum]
  let self := { self with chunkNum := self.chunkNum + 1 }
  let result ← result.addFeatures level.current
  PM.pure (self, result)

/-- LazyNCList.makeLazyFeat (lines 178 to 182), exactly as written:
result is a fresh empty list, so the first item assignment
result[self.startIndex] = newNcl.minStart raises IndexError; the later
line mentions the undefined bare name chunk (NameError), and the method
has no return statement, so Python would return None. -/
def LazyNCList.makeLazyFeat (self : LazyNCList) (newNcl : NCList) :
    PM Val := do
  let result ← allocM []
  setItemV (.ref result) self.startIndex newNcl.minStart
  setItemV (.ref result) self.endIndex newNcl.maxEnd
  let key ← lookupName "chunk"
  setItemV (.ref result) self.lazyIndex key
  PM.pure Val.none

/-- The for-loop over levels of LazyNCList.addSorted (lines 116 to
163): at each level the size estimate is added, the finalize condition
is evaluated (size threshold, or same start as precedingFeat with a
growing end), and either the feature is appended to the partial chunk
(done), or the chunk is finalized, a lazy feature is made for it and
placed by findContainingNcl; an unconsumed lazy feature moves up to the
next level.  Returns the updated levels and the leftover feature, if
the loop ran past every level. -/
def LazyNCList.addLevelLoop (self : LazyNCList) (feat : Val) :
    List LazyLevel → PM (LazyNCList × List LazyLevel × Option Val)
  | [] => PM.pure (self, [], some feat)
  | level :: rest => do
      let featSize := self.measure feat
      let level := { level with chunkSize := level.chunkSize + featSize }
      let full ← do
        if level.chunkSize > self.sizeThresh then PM.pure true
        else if level.precedingFeat != Val.none then do
          let ps ← subV level.precedingFeat self.startIndex
          match level.current with
          | [] => throwE .indexError
          | c0 :: _ => do
            let cs ← subV c0 self.startIndex
            if pyEq ps cs then do
              let pe ← subV level.precedingFeat self.endIndex
              let fe ← subV feat self.endIndex
              pyLt pe fe
            else PM.pure false
        else PM.pure false
      if full then do
        let (self, newNcl) ← self.makeNcl level
        match level.current.getLast? with
        | Option.none => throwE .indexError
        | some lastF => do
          let level := { level with
                         precedingFeat := lastF
                         current := [feat]
                         chunkSize := featSize }
          let lazyFeat ← self.makeLazyFeat newNcl
          let (level, ret) ← level.findContainingNcl newNcl lazyFeat
          if ret == Val.none then
            PM.pure (self, level :: rest, Option.none)
          else do
            let (self, rest2, leftover) ← LazyNCList.addLevelLoop self ret rest
            PM.pure (self, level :: rest2, leftover)
      else
        PM.pure (self, { level with current := level.current ++ [feat] } :: rest,
                 Option.none)

/-- LazyNCList.addSorted (lines 101 to 169), exactly as written: line
105 reads self.lastAdded, which the constructor never assigned, so the
read raises AttributeError on the first call (and, since line 112 is
then never reached, on every later call as well); line 114 likewise
reads the never-assigned self.chunkSizes.  After the level loop a
leftover feature starts a brand-new top level. -/
def LazyNCList.addSorted (self : LazyNCList) (feat : Val) :
    PM LazyNCList := do
  match self.lastAdded? with
  | Option.none => throwE (.attributeError "lastAdded")
  | some lastAdded => do
      if lastAdded != Val.none then do
        let laS ← subV lastAdded self.startIndex
        let fS ← subV feat self.startIndex
        let g ← pyGt laS fS
        if g then throwE .inputNotSortedError
        else do
          let laS2 ← subV lastAdded self.startIndex
          let fS2 ← subV feat self.startIndex
          if pyEq laS2 fS2 then do
            let laE ← subV lastAdded self.endIndex
            let fE ← subV feat self.endIndex
            let l ← pyLt laE fE
            if l then throwE .inputNotSortedError
            else PM.pure ()
          else PM.pure ()
      else PM.pure ()
      let self := { self with lastAdded? := some feat }
      match self.chunkSizes? with
      | Option.none => throwE (.attributeError "chunkSizes")
      | some _ => do
          let (self, levels2, leftover) ← self.addLevelLoop feat self.levels
          match leftover with
          | Option.none => PM.pure { self with levels := levels2 }
          | some f =>
              let newTop := { LazyLevel.initState with current := [f] }
              PM.pure { self with levels := levels2 ++ [newTop] }

/-- Flushing loop at the end of each finish iteration (lines 195 to
196): output every remaining NCL on the ncls stack, in insertion
order.  A plain (non-NCList) entry has no nestedList attribute. -/
def outputNcls : List NclsItem → PM Unit
  | [] => PM.pure ()
  | .nclObj n :: rest => do
      emitOutput n.nestedList n.ID
      outputNcls rest
  | .plain _ :: _ => throwE (.attributeError "nestedList")

/-- LazyNCList.finish (lines 184 to 204), split on the level list: the
non-last levels run the draining iteration (append the pending lazy
feature, finalize the partial chunk, place it, flush the stack); the
last level absorbs the pending lazy feature and its chunk becomes the
root, assigned to the topLevel attribute (NOT to topList, which
nestedList returns; and finish itself returns None in the source). -/
def LazyNCList.finishAux (self : LazyNCList) (lazyFeat : Val) :
    LazyLevel → List LazyLevel → PM (LazyNCList × List LazyLevel)
  | level, [] => do
      let level := if lazyFeat != Val.none then
          { level with current := level.current ++ [lazyFeat] } else level
      let (self, newNcl) ← self.makeNcl level
      PM.pure ({ self with topLevel? := some newNcl }, [level])
  | level, next :: rest => do
      let level := if lazyFeat != Val.none then
          { level with current := level.current ++ [lazyFeat] } else level
      let (self, newNcl) ← self.makeNcl level
      let lf ← self.makeLazyFeat newNcl
      let (level, lf) ← level.findContainingNcl newNcl lf
      outputNcls level.ncls.reverse
      let (self, levels2) ← LazyNCList.finishAux self lf next rest
      PM.pure (self, level :: levels2)

/-- LazyNCList.finish (lines 184 to 204). -/
def LazyNCList.finish (self : LazyNCList) : PM LazyNCList := do
  match self.levels with
  | [] => throwE .indexError
  | l0 :: rest => do
      let (self2, levels2) ← LazyNCList.finishAux self Val.none l0 rest
      PM.pure { self2 with levels := levels2 }

/-! Frame-property vocabulary: what a run does to record slots. -/

/-- Read slot i of the list object at address a, if both exist. -/
def readSlot (s : PySt) (a i : Nat) : Option Val :=
  (lookupList s.heap a).bind fun c => lookupList c i

/-- The states s and t agree on every already-present slot whose index
is not sub: the only slot a run is allowed to touch. -/
def HeapFrame (sub : Nat) (s t : PySt) : Prop :=
  ∀ a i, i ≠ sub → (readSlot s a i).isSome = true →
    readSlot t a i = readSlot s a i

/-- A computation whose final state satisfies HeapFrame sub against its
initial state, whether it returns or raises. -/
def Frames (sub : Nat) {α : Type} (x : PM α) : Prop :=
  ∀ s, HeapFrame sub s (x s).stateOf

/-- A computation that never changes the state at all. -/
def ReadOnly {α : Type} (x : PM α) : Prop :=
  ∀ s, (x s).stateOf = s

/-! Concrete fixtures.  Record slots are laid out as 0 = start,
1 = end, 2 = sublist, 3 = lazy payload. -/

/-- The four sorted example records of the spec, as heap cells. -/
def recsC2 : List (List Val) :=
  [[.int 1, .int 100, .none, .none],
   [.int 10, .int 50, .none, .none],
   [.int 20, .int 30, .none, .none],
   [.int 60, .int 90, .none, .none]]

/-- Two sorted records, 1 to 10 then 2 to 5. -/
def recsC1 : List (List Val) :=
  [[.int 1, .int 10, .none, .none],
   [.int 2, .int 5, .none, .none]]

/-- Two UNSORTED records: 1 to 100 then 0 to 50 (start decreases). -/
def recsC5 : List (List Val) :=
  [[.int 1, .int 100, .none],
   [.int 0, .int 50, .none]]

/-- One record, 1 to 10. -/
def recsC6 : List (List Val) := [[.int 1, .int 10, .none]]

/-- A sorted stream with a same-start pair followed by a wider record:
5 to 10, 5 to 8, 6 to 100. -/
def recsC7 : List (List Val) :=
  [[.int 5, .int 10, .none, .none],
   [.int 5, .int 8, .none, .none],
   [.int 6, .int 100, .none, .none]]

/-- A fresh streaming builder over recsC7, exactly the object that
LazyNCList.init 0 1 2 3 (fun v => 1) 1 produces on that heap. -/
def lzC7 : LazyNCList :=
  { startIndex := 0
    endIndex := 1
    sublistIndex := 2
    lazyIndex := 3
    measure := fun _ => 1
    sizeThresh := 1
    topList := 3
    levels := [LazyLevel.initState]
    chunkNum := 0 }

/-- Heap for the findContainingNcl scenario: cell 0 a record spanning
5 to 100 inside the pending chunk, cell 1 that chunks top-level list,
cell 2 the lazy placeholder record spanning 5 to 50, cell 3 the
top-level list of the new chunk. -/
def recsC3 : List (List Val) :=
  [[.int 5, .int 100, .none, .none],
   [.ref 0],
   [.int 5, .int 50, .none, .none],
   []]

/-- The pending (finished, unflushed) chunk on the ncls stack: spans
5 to 100, its hierarchy is cell 1, and its lastAdded is set (as it is
after a completed build). -/
def exNclC3 : NCList :=
  { startIndex := 0
    endIndex := 1
    sublistIndex := 2
    sublistStack := []
    count := 0
    lastAdded := .ref 0
    minStart := .int 5
    maxEnd := .int 100
    curList := 1
    topList := 1
    ID := .none }

/-- The just-finished chunk being placed: spans 5 to 50, hierarchy is
cell 3. -/
def newNclC3 : NCList :=
  { startIndex := 0
    endIndex := 1
    sublistIndex := 2
    sublistStack := []
    count := 0
    lastAdded := .none
    minStart := .int 5
    maxEnd := .int 50
    curList := 3
    topList := 3
    ID := .none }

/-- The tier holding exNclC3 as its only pending chunk. -/
def lvlC3 : LazyLevel :=
  { precedingFeat := .none, current := [], chunkSize := 0,
    ncls := [.nclObj exNclC3] }

/-- The pending chunk as it stands after the placement call: the lazy
placeholder was ingested, which (through the inverted addFeatures
guard) rewrote its lastAdded, minStart and maxEnd to those of the
placeholder. -/
def exNclC3after : NCList :=
  { exNclC3 with lastAdded := .ref 2, minStart := .int 5, maxEnd := .int 50 }

/-- A fresh NCList over a heap that extends recsC2 with its empty top
list at address 4 (used to instantiate the frame theorem). -/
def nclC9 : NCList :=
  { startIndex := 0
    endIndex := 1
    sublistIndex := 2
    sublistStack := []
    count := 0
    lastAdded := .none
    minStart := .none
    maxEnd := .none
    curList := 4
    topList := 4
    ID := .none }

/-! Helper lemmas. -/

/-- Unfolding of monadic bind applied to a state. -/
theorem PM.bind_apply {α β : Type} (x : PM α) (f : α → PM β) (s : PySt) :
    (x >>= f) s =
      match x s with
      | .ok a s2 => f a s2
      | .err e s2 => .err e s2 := rfl

/-- Looking up the address of a freshly appended cell. -/
theorem lookupList_append_length {α : Type} (l : List α) (x : α) :
    lookupList (l ++ [x]) l.length = some x := by
  induction l with
  | nil => rfl
  | cons y ys ih => exact ih

/-! Claim theorems. -/

/-- C1: the round-trip property is unsatisfiable on the code as
written.  On the same sorted two-record input, the streaming builder
raises AttributeError on the very first addSorted call (its lastAdded
attribute is never assigned by the constructor), and the one-shot
NCList builder raises TypeError on addFeatures (the inverted
initialization guard at line 26 leaves lastAdded as None, which the
loop then subscripts), so neither side produces any hierarchy, chunk
or root to compare. -/
theorem C1_round_trip_both_builders_raise :
    (PM.bind (LazyNCList.init 0 1 2 3 (fun _ => 1) 1)
        (fun lz => lz.addSorted (.ref 0))) { heap := recsC1, trace := [] }
      = .err (.attributeError "lastAdded")
          { heap := recsC1 ++ [[]], trace := [] } ∧
    (PM.bind (NCList.init 0 1 2)
        (fun ncl => ncl.addFeatures [.ref 0, .ref 1]))
        { heap := recsC1, trace := [] }
      = .err (.typeError "not subscriptable")
          { heap := recsC1 ++ [[]], trace := [] } :=
  ⟨rfl, rfl⟩

/-- C2: addFeatures on a freshly constructed NCList with the four
sorted example records does not build the claimed hierarchy: the
initialization guard at line 26 is inverted (is not None where the
comment and the algorithm require is None), so lastAdded stays None
and the first loop iteration raises TypeError subscripting it; the
heap, and with it every record, is left untouched. -/
theorem C2_single_chunk_addFeatures_raises :
    (PM.bind (NCList.init 0 1 2)
        (fun ncl => ncl.addFeatures [.ref 0, .ref 1, .ref 2, .ref 3]))
        { heap := recsC2, trace := [] }
      = .err (.typeError "not subscriptable")
          { heap := recsC2 ++ [[]], trace := [] } := rfl

/-- C3: findContainingNcl on a tier whose pending stack holds one
chunk spanning 5 to 100, placing a new chunk spanning 5 to 50 whose
placeholder is the record at address 2.  The placeholder is attached
into the hierarchy of the pending chunk (cell 1 grows by ref 2) and
the call returns None, as claimed; but the value pushed onto ncls is
the PLACEHOLDER, not the new chunk: line 239 appends lazyFeat where
the adjacent comment says the new NCL is added, so the new chunk is
dropped and a plain record sits on the chunk stack. -/
theorem C3_findContainingNcl_pushes_placeholder_not_chunk :
    lvlC3.findContainingNcl newNclC3 (.ref 2) { heap := recsC3, trace := [] }
      = .ok ({ lvlC3 with ncls := [.plain (.ref 2), .nclObj exNclC3after] },
             Val.none)
          { heap := [[.int 5, .int 100, .none, .none],
                     [.ref 0, .ref 2],
                     [.int 5, .int 50, .none, .none],
                     []]
            trace := [] } ∧
    NclsItem.plain (.ref 2) ≠ NclsItem.nclObj newNclC3 :=
  ⟨rfl, by decide⟩

/-- C4: finish on a fresh streaming builder (the only reachable
builder state, since addSorted always raises) produces no root:
makeNcl calls the None-valued ID attribute of the new NCList and
raises TypeError.  Nothing is flushed (the trace stays empty), the
topList cell read by nestedList stays empty, and the topLevel
assignment on line 204 is never reached, so no root-level hierarchy is
ever made available to the caller. -/
theorem C4_finish_raises_and_publishes_no_root :
    (PM.bind (LazyNCList.init 0 1 2 3 (fun _ => 1) 100)
        (fun lz => lz.finish)) { heap := [], trace := [] }
      = .err (.typeError "object is not callable")
          { heap := [[], []], trace := [] } := rfl

/-- C5: feeding consecutive records with decreasing starts raises
neither entry points InputNotSortedError: addFeatures raises TypeError
on the first record, before its sortedness check can ever run
(lastAdded is None), and addSorted raises AttributeError on the
never-assigned lastAdded attribute before its check; the sortedness
checks on lines 33 to 40 and 105 to 110 are unreachable from the
public API. -/
theorem C5_unsorted_input_raises_wrong_errors :
    (PM.bind (NCList.init 0 1 2)
        (fun ncl => ncl.addFeatures [.ref 0, .ref 1]))
        { heap := recsC5, trace := [] }
      = .err (.typeError "not subscriptable")
          { heap := recsC5 ++ [[]], trace := [] } ∧
    (PM.bind (LazyNCList.init 0 1 2 3 (fun _ => 1) 100)
        (fun lz => lz.addSorted (.ref 0))) { heap := recsC5, trace := [] }
      = .err (.attributeError "lastAdded")
          { heap := recsC5 ++ [[]], trace := [] } ∧
    Err.typeError "not subscriptable" ≠ Err.inputNotSortedError ∧
    Err.attributeError "lastAdded" ≠ Err.inputNotSortedError :=
  ⟨rfl, rfl, by decide, by decide⟩

/-- C6: after feeding the single record from 1 to 10 to a fresh
NCList, minStart does not equal 1 and maxEnd does not equal 10: the
run raises TypeError before either field is ever assigned (the
assignments on lines 29 and 30 sit in the inverted branch, and the
loop dies subscripting the None lastAdded), so no built set with the
claimed summary values exists. -/
theorem C6_minStart_maxEnd_never_computed :
    (PM.bind (NCList.init 0 1 2) (fun ncl => ncl.addFeatures [.ref 0]))
        { heap := recsC6, trace := [] }
      = .err (.typeError "not subscriptable")
          { heap := recsC6 ++ [[]], trace := [] } := rfl

/-- C7: the same-start boundary rule never governs a chunk split,
because no record is ever placed into any chunk: on the stream 5 to
10, 5 to 8, 6 to 100 (whose same-start pair the rule is meant to keep
together), the very first addSorted call on the freshly initialized
builder raises AttributeError reading the never-assigned lastAdded,
before the boundary condition on lines 125 to 129 is ever evaluated;
and every later call fails the same way since line 112 is never
reached. -/
theorem C7_no_record_ever_reaches_chunking :
    LazyNCList.init 0 1 2 3 (fun _ => 1) 1 { heap := recsC7, trace := [] }
      = .ok lzC7 { heap := recsC7 ++ [[]], trace := [] } ∧
    ∀ feat : Val,
      lzC7.addSorted feat { heap := recsC7 ++ [[]], trace := [] }
        = .err (.attributeError "lastAdded")
            { heap := recsC7 ++ [[]], trace := [] } :=
  ⟨rfl, fun _ => rfl⟩

/-- C8: makeLazyFeat never produces a placeholder record: result is
created as a fresh empty list, so the very first item assignment,
result[self.startIndex] = newNcl.minStart, raises IndexError for every
configuration, every chunk and every starting state; the later lines
(the undefined bare name chunk, and the missing return) are dead
code. -/
theorem C8_makeLazyFeat_always_raises (self : LazyNCList)
    (newNcl : NCList) (s : PySt) :
    self.makeLazyFeat newNcl s
      = .err .indexError { s with heap := s.heap ++ [[]] } := by
  unfold LazyNCList.makeLazyFeat
  simp only [PM.bind_apply, allocM, setItemV, setList,
             lookupList_append_length]

/-! Frame infrastructure for the slot-preservation claim. -/

theorem HeapFrame.refl {sub : Nat} {s : PySt} : HeapFrame sub s s :=
  fun _ _ _ _ => rfl

theorem HeapFrame.trans {sub : Nat} {s t u : PySt}
    (h1 : HeapFrame sub s t) (h2 : HeapFrame sub t u) :
    HeapFrame sub s u := by
  intro a i hi hs
  have e1 := h1 a i hi hs
  have hs2 : (readSlot t a i).isSome = true := by rw [e1]; exact hs
  rw [h2 a i hi hs2, e1]

theorem ReadOnly.frames {α : Type} {x : PM α} (h : ReadOnly x)
    (sub : Nat) : Frames sub x := by
  intro s
  show HeapFrame sub s (x s).stateOf
  rw [h s]
  exact HeapFrame.refl

theorem frames_pure {α : Type} (sub : Nat) (a : α) :
    Frames sub (PM.pure a) := fun _ => HeapFrame.refl

theorem frames_throwE {α : Type} (sub : Nat) (e : Err) :
    Frames sub (throwE e : PM α) := fun _ => HeapFrame.refl

theorem frames_bind {sub : Nat} {α β : Type} {x : PM α} {f : α → PM β}
    (hx : Frames sub x) (hf : ∀ a, Frames sub (f a)) :
    Frames sub (x >>= f) := by
  intro s
  show HeapFrame sub s ((x >>= f) s).stateOf
  rw [PM.bind_apply]
  cases hxs : x s with
  | ok a s2 =>
      have h1 : HeapFrame sub s s2 := by
        have hh := hx s; rw [hxs] at hh; exact hh
      exact HeapFrame.trans h1 (hf a s2)
  | err e s2 =>
      have hh := hx s; rw [hxs] at hh; exact hh

theorem readOnly_getCell (a : Nat) : ReadOnly (getCell a) := by
  intro s
  unfold getCell
  cases lookupList s.heap a <;> rfl

theorem readOnly_subV (v : Val) (i : Nat) : ReadOnly (subV v i) := by
  intro s
  unfold subV
  split
  · split
    · split <;> rfl
    · rfl
  · rfl

theorem readOnly_pyLt (a b : Val) : ReadOnly (pyLt a b) := by
  intro s
  cases a <;> cases b <;> rfl

theorem readOnly_pyGt (a b : Val) : ReadOnly (pyGt a b) :=
  readOnly_pyLt b a

theorem readOnly_bind {α β : Type} {x : PM α} {f : α → PM β}
    (hx : ReadOnly x) (hf : ∀ a, ReadOnly (f a)) : ReadOnly (x >>= f) := by
  intro s
  show ((x >>= f) s).stateOf = s
  rw [PM.bind_apply]
  cases hxs : x s with
  | ok a s2 =>
      have h1 := hx s
      rw [hxs] at h1
      simp only [PRes.stateOf] at h1
      rw [hf a s2, h1]
  | err e s2 =>
      have h1 := hx s
      rw [hxs] at h1
      exact h1

theorem readOnly_pyMax (a b : Val) : ReadOnly (pyMax a b) :=
  readOnly_bind (readOnly_pyLt a b) (fun _ _ => rfl)

theorem readSlot_heap_isSome {s : PySt} {a i : Nat}
    (hs : (readSlot s a i).isSome = true) :
    (lookupList s.heap a).isSome = true := by
  unfold readSlot at hs
  cases h : lookupList s.heap a with
  | none => rw [h] at hs; simp at hs
  | some c => rfl

theorem lookupList_append_of_isSome {α : Type} {l : List α} {n : Nat}
    (h : (lookupList l n).isSome = true) (l2 : List α) :
    lookupList (l ++ l2) n = lookupList l n := by
  induction l generalizing n with
  | nil => simp [lookupList] at h
  | cons y ys ih =>
      cases n with
      | zero => rfl
      | succ m => exact ih h

theorem setList_lookup_self {α : Type} {v : α} :
    ∀ (l : List α) (n : Nat) (l2 : List α),
      setList l n v = some l2 → lookupList l2 n = some v := by
  intro l
  induction l with
  | nil => intro n l2 h; simp [setList] at h
  | cons y ys ih =>
      intro n l2 h
      cases n with
      | zero =>
          simp only [setList, Option.some.injEq] at h
          subst h
          rfl
      | succ m =>
          simp only [setList] at h
          cases hm : setList ys m v with
          | none => rw [hm] at h; simp at h
          | some l3 =>
              rw [hm] at h
              simp at h
              subst h
              exact ih m l3 hm

theorem setList_lookup_ne {α : Type} {v : α} :
    ∀ (l : List α) (n : Nat) (l2 : List α) (m : Nat),
      setList l n v = some l2 → m ≠ n →
      lookupList l2 m = lookupList l m := by
  intro l
  induction l with
  | nil => intro n l2 m h _; simp [setList] at h
  | cons y ys ih =>
      intro n l2 m h hm
      cases n with
      | zero =>
          simp only [setList, Option.some.injEq] at h
          subst h
          cases m with
          | zero => exact absurd rfl hm
          | succ k => rfl
      | succ n2 =>
          simp only [setList] at h
          cases hset : setList ys n2 v with
          | none => rw [hset] at h; simp at h
          | some l3 =>
              rw [hset] at h
              simp at h
              subst h
              cases m with
              | zero => rfl
              | succ k =>
                  exact ih n2 l3 k hset (fun hk => hm (by rw [hk]))

theorem frames_allocM (sub : Nat) (c : List Val) :
    Frames sub (allocM c) := by
  intro s b i _ hs
  have hl2 := lookupList_append_of_isSome (readSlot_heap_isSome hs) [c]
  show readSlot { s with heap := s.heap ++ [c] } b i = readSlot s b i
  unfold readSlot
  simp only []
  rw [hl2]

theorem heapFrame_setCell {s : PySt} {a : Nat} {c c2 : List Val}
    {h2 : List (List Val)} {sub : Nat}
    (hl : lookupList s.heap a = some c)
    (hset : setList s.heap a c2 = some h2)
    (hkeep : ∀ i, i ≠ sub → (lookupList c i).isSome = true →
       lookupList c2 i = lookupList c i) :
    HeapFrame sub s { s with heap := h2 } := by
  intro b i hi hs
  show (lookupList h2 b).bind (fun cc => lookupList cc i)
     = (lookupList s.heap b).bind (fun cc => lookupList cc i)
  by_cases hba : b = a
  · subst hba
    have hci : (lookupList c i).isSome = true := by
      have hrs : readSlot s b i = lookupList c i := by
        show (lookupList s.heap b).bind (fun cc => lookupList cc i)
           = lookupList c i
        rw [hl]
        rfl
      rw [hrs] at hs
      exact hs
    rw [setList_lookup_self s.heap b h2 hset, hl]
    show lookupList c2 i = lookupList c i
    exact hkeep i hi hci
  · rw [setList_lookup_ne s.heap a h2 b hset hba]

theorem frames_appendCell (sub : Nat) (a : Nat) (x : Val) :
    Frames sub (appendCell a x) := by
  intro s b i hi hs
  unfold appendCell
  split
  · rename_i c hl
    split
    · rename_i h2 hset
      refine heapFrame_setCell hl hset ?_ b i hi hs
      intro j _ hj
      exact lookupList_append_of_isSome hj [x]
    · rfl
  · rfl

theorem frames_setItemV (v : Val) (idx : Nat) (x : Val) :
    Frames idx (setItemV v idx x) := by
  intro s b i hi hs
  unfold setItemV
  split
  · rename_i a
    split
    · rename_i c hl
      split
      · rename_i c2 hsl
        split
        · rename_i h2 hset
          refine heapFrame_setCell hl hset ?_ b i hi hs
          intro j hj _
          exact setList_lookup_ne c idx c2 j hsl hj
        · rfl
      · rfl
    · rfl
  · rfl

theorem frames_addSingleLoop (sub e : Nat) (feat : Val) :
    ∀ (stack : List Nat) (cur : Nat),
      Frames sub (NCList.addSingleLoop e feat stack cur) := by
  intro stack
  induction stack with
  | nil =>
      intro cur
      unfold NCList.addSingleLoop
      exact frames_bind (frames_appendCell sub cur feat)
        (fun _ => frames_pure sub _)
  | cons topL rest ih =>
      intro cur
      unfold NCList.addSingleLoop
      apply frames_bind ((readOnly_getCell topL).frames sub)
      intro c
      cases c.getLast? with
      | none => exact frames_throwE sub _
      | some lastRec =>
          apply frames_bind ((readOnly_subV lastRec e).frames sub)
          intro le
          apply frames_bind ((readOnly_subV feat e).frames sub)
          intro fe
          apply frames_bind ((readOnly_pyGt le fe).frames sub)
          intro gt
          cases gt with
          | true =>
              exact frames_bind (frames_appendCell sub cur feat)
                (fun _ => frames_pure sub _)
          | false => exact ih topL

theorem frames_addSingle (feat lastAdded : Val) (stack : List Nat)
    (cur e sub : Nat) :
    Frames sub (NCList.addSingle feat lastAdded stack cur e sub) := by
  unfold NCList.addSingle
  apply frames_bind ((readOnly_subV feat e).frames sub)
  intro fe
  apply frames_bind ((readOnly_subV lastAdded e).frames sub)
  intro le
  apply frames_bind ((readOnly_pyLt fe le).frames sub)
  intro lt
  cases lt with
  | true =>
      apply frames_bind (frames_allocM sub [feat])
      intro newList
      exact frames_bind (frames_setItemV lastAdded sub (.ref newList))
        (fun _ => frames_pure sub _)
  | false => exact frames_addSingleLoop sub e feat stack cur

theorem readOnly_sortCheck (self : NCList) (feat : Val) :
    ReadOnly (self.sortCheck feat) := by
  unfold NCList.sortCheck
  apply readOnly_bind (readOnly_subV self.lastAdded self.startIndex)
  intro laS
  apply readOnly_bind (readOnly_subV feat self.startIndex)
  intro fS
  apply readOnly_bind (readOnly_pyGt laS fS)
  intro g
  cases g with
  | true => intro s; rfl
  | false =>
      apply readOnly_bind (readOnly_subV self.lastAdded self.startIndex)
      intro laS2
      apply readOnly_bind (readOnly_subV feat self.startIndex)
      intro fS2
      split
      · apply readOnly_bind (readOnly_subV self.lastAdded self.endIndex)
        intro laE
        apply readOnly_bind (readOnly_subV feat self.endIndex)
        intro fE
        exact readOnly_pyLt laE fE
      · intro s; rfl

theorem frames_addLoop (feats : List Val) :
    ∀ (self : NCList),
      Frames self.sublistIndex (NCList.addLoop self feats) := by
  induction feats with
  | nil =>
      intro self
      unfold NCList.addLoop
      exact frames_pure _ _
  | cons feat rest ih =>
      intro self
      unfold NCList.addLoop
      apply frames_bind ((readOnly_sortCheck self feat).frames _)
      intro sortViol
      cases sortViol with
      | true => exact frames_throwE _ _
      | false =>
          apply frames_bind ((readOnly_subV feat self.endIndex).frames _)
          intro fE2
          apply frames_bind ((readOnly_pyMax self.maxEnd fE2).frames _)
          intro newMax
          apply frames_bind (frames_addSingle feat self.lastAdded
            self.sublistStack self.curList self.endIndex self.sublistIndex)
          intro pr
          obtain ⟨stack2, cur2⟩ := pr
          exact ih { self with
                     maxEnd := newMax
                     sublistStack := stack2
                     curList := cur2
                     lastAdded := feat }

theorem frames_addFeatures (self : NCList) (features : List Val) :
    Frames self.sublistIndex (self.addFeatures features) := by
  unfold NCList.addFeatures
  split
  · cases features with
    | nil => exact frames_throwE _ _
    | cons f0 rest =>
        apply frames_bind ((readOnly_subV f0 self.startIndex).frames _)
        intro ms
        apply frames_bind ((readOnly_subV f0 self.endIndex).frames _)
        intro me
        apply frames_bind (frames_appendCell _ self.curList f0)
        intro u
        exact frames_addLoop rest
          { self with lastAdded := f0, minStart := ms, maxEnd := me }
  · exact frames_addLoop features self

/-- C9: addFeatures never changes any already-present slot of any heap
record other than the slot at sublistIndex: for every builder state,
every feature list, every starting state, every address and every slot
index different from sublistIndex that exists before the call, the
slot holds the same value after the call, whether the call returns or
raises.  In particular the start slot, the end slot and all
application-defined attribute slots of every ingested record keep
their original values. -/
theorem C9_addFeatures_touches_only_sublist_slots
    (self : NCList) (features : List Val) (s : PySt) (a i : Nat)
    (hi : i ≠ self.sublistIndex)
    (hs : (readSlot s a i).isSome = true) :
    readSlot ((self.addFeatures features s).stateOf) a i
      = readSlot s a i :=
  frames_addFeatures self features s a i hi hs

/-- Witness for C9 at a concrete input: the start slot of record 0 is
untouched by an addFeatures run on the four example records. -/
theorem C9_witness :
    (0 : Nat) ≠ nclC9.sublistIndex ∧
    (readSlot { heap := recsC2 ++ [[]], trace := [] } 0 0).isSome = true ∧
    readSlot ((nclC9.addFeatures [.ref 0, .ref 1]
        { heap := recsC2 ++ [[]], trace := [] }).stateOf) 0 0
      = readSlot { heap := recsC2 ++ [[]], trace := [] } 0 0 :=
  ⟨by decide, by decide,
   C9_addFeatures_touches_only_sublist_slots nclC9 [.ref 0, .ref 1]
     { heap := recsC2 ++ [[]], trace := [] } 0 0 (by decide) (by decide)⟩

/-- C10: the public streaming entry point cannot complete normally:
for every configuration, every incoming record and every starting
state, the first addSorted call on a freshly constructed LazyNCList
raises AttributeError at line 105 reading self.lastAdded, which
__init__ never assigns (line 114 would likewise read the never
assigned self.chunkSizes); the record is not buffered and the state is
untouched beyond the constructor allocation. -/
theorem C10_first_addSorted_raises_attribute_error
    (a b c d : Nat) (m : Val → Int) (th : Int) (feat : Val) (s : PySt) :
    (PM.bind (LazyNCList.init a b c d m th)
        (fun lz => lz.addSorted feat)) s
      = .err (.attributeError "lastAdded")
          { s with heap := s.heap ++ [[]] } := rfl

end NCListPy
